import Mathlib

/-!
Shallow embedding of the quota-aware, rate-limited, cached price-fetch
client (class StockAPI, the Finnhub-optimized variant) together with
proofs of the specified properties.

Modelling conventions:
* The mutable fields of the StockAPI instance become the record APIState,
  threaded explicitly through every operation.
* The JavaScript Map (insertion-ordered, unique keys) is modelled as an
  association list List (String × _): set on a present key updates the
  value in place, set on a fresh key appends, delete removes the key, and
  the first inserted key is the head of the list.
* Wall-clock instants (Date.now) enter as an explicit now : Nat argument;
  the calendar date string (Date.toDateString) as today : String.
* The network is an oracle net : Nat → NetResponse consumed at an index
  that increments once per outbound fetch; the list of symbols for which
  an outbound call was issued is returned alongside each result.
* localStorage persistence of the quota counter is observationally a
  no-op for the in-process state and is not modelled separately.
* async control flow is single-threaded and cooperative; the drain loop
  of processQueue is a recursion over the queue contents, and awaiting an
  enqueued promise is modelled by running the drain to completion.
* Numeric fields travel as exact rationals; toFixed(2) followed by
  parseFloat is modelled as rounding to two decimal places (round2).
  Floating-point artifacts are outside the scope of every claim proved
  here.
-/

namespace StockTracker

/-- JavaScript a || b for strings: the empty string is falsy. -/
def jsOrString (a b : String) : String := if a = "" then b else a

/-- JavaScript a || b where a is an optional string field of a parsed
JSON object: undefined and the empty string both fall through. -/
def jsOrOpt (a : Option String) (b : String) : String :=
  match a with
  | some s => jsOrString s b
  | none => b

/-- String.prototype.toUpperCase, characterwise (symbols are ASCII, for
which the JavaScript and characterwise behaviors agree). -/
def jsToUpper (s : String) : String := String.mk (s.toList.map Char.toUpper)

/-- String.prototype.trim: strip leading and trailing whitespace. -/
def jsTrim (s : String) : String :=
  String.mk (((s.toList.dropWhile Char.isWhitespace).reverse.dropWhile
    Char.isWhitespace).reverse)

/-- Rounding to two decimal places: parseFloat(x.toFixed(2)). -/
def round2 (q : ℚ) : ℚ := ((round (q * 100) : ℤ) : ℚ) / 100

/-- JavaScript Array.prototype.slice(0, e) where e may be negative:
a negative end counts from the end of the array, clamped at zero. -/
def jsSliceEnd {α : Type} (l : List α) (e : ℤ) : List α :=
  if e < 0 then l.take (l.length - e.natAbs) else l.take e.toNat

/-- Boolean test that the first list is an initial segment of the second. -/
def startsWithChars : List Char → List Char → Bool
  | [], _ => true
  | _ :: _, [] => false
  | a :: as, b :: bs => (a == b) && startsWithChars as bs

/-- Boolean substring search on character lists. -/
def containsChars (needle : List Char) : List Char → Bool
  | [] => startsWithChars needle []
  | b :: bs => startsWithChars needle (b :: bs) || containsChars needle bs

/-- Boolean substring test on strings. -/
def strContains (hay needle : String) : Bool :=
  containsChars needle.toList hay.toList

/-- Canonical QuoteResult shape produced by the client. Fields absent in
a given result are none. -/
structure QuoteResult where
  success : Bool
  price : Option ℚ := none
  change : Option ℚ := none
  changePercent : Option ℚ := none
  volume : Option ℚ := none
  marketCap : Option ℚ := none
  currency : Option String := none
  source : Option String := none
  error : Option String := none
  deriving DecidableEq

/-- One cache slot: the stored result and its write timestamp. -/
structure CacheEntry where
  data : QuoteResult
  timestamp : Nat
  deriving DecidableEq

/-- Parsed JSON body of a Finnhub quote response. c is the current
price (none when the field is undefined or null), pc the previous
close, error an optional error string. -/
structure FinnhubBody where
  c : Option ℚ := none
  pc : ℚ := 0
  error : Option String := none
  deriving DecidableEq

/-- Outcome of one outbound fetch call: a 2xx response with a JSON
body, a non-2xx response, or a transport error thrown by fetch. -/
inductive NetResponse where
  | ok (body : FinnhubBody)
  | httpError (status : Nat) (statusText : String)
  | netError (message : String)
  deriving DecidableEq

/-- The mutable fields of the StockAPI instance. Field defaults mirror
the constructor: empty cache, 15-minute cache expiry, empty queue, not
processing, 1200 ms rate-limit delay, 50 daily requests. -/
structure APIState where
  cache : List (String × CacheEntry) := []
  cacheExpiry : Nat := 15 * 60 * 1000
  requestQueue : List String := []
  isProcessing : Bool := false
  rateLimitDelay : Nat := 1200
  dailyRequestCount : Nat := 0
  maxDailyRequests : Nat := 50
  lastResetDate : String := ""
  deriving DecidableEq

/-- The constructor with the two persisted scalars loaded from storage. -/
def initialState (persistedCount : Nat) (persistedDate : String) : APIState :=
  { dailyRequestCount := persistedCount, lastResetDate := persistedDate }

/-- Map.get on the insertion-ordered cache map. -/
def mapGet {β : Type} : List (String × β) → String → Option β
  | [], _ => none
  | (k₁, v) :: rest, k => if k₁ = k then some v else mapGet rest k

/-- Map.set: update in place when the key is present, append otherwise. -/
def mapSet {β : Type} : List (String × β) → String → β → List (String × β)
  | [], k, v => [(k, v)]
  | (k₁, v₁) :: rest, k, v =>
      if k₁ = k then (k₁, v) :: rest else (k₁, v₁) :: mapSet rest k v

/-- Map.delete: remove the key (all occurrences; keys are unique in any
state a JavaScript Map can reach). -/
def mapDelete {β : Type} : List (String × β) → String → List (String × β)
  | [], _ => []
  | (k₁, v₁) :: rest, k =>
      if k₁ = k then mapDelete rest k else (k₁, v₁) :: mapDelete rest k

/-- checkAndResetDailyCounter: a reset-date mismatch with today zeroes
the counter and stamps today. -/
def checkAndResetDailyCounter (st : APIState) (today : String) : APIState :=
  if st.lastResetDate ≠ today then
    { st with dailyRequestCount := 0, lastResetDate := today }
  else st

/-- canMakeRequest: run the reset check, then compare the counter with
the daily maximum. Returns the answer and the possibly-reset state. -/
def canMakeRequest (st : APIState) (today : String) : Bool × APIState :=
  let st₁ := checkAndResetDailyCounter st today
  (decide (st₁.dailyRequestCount < st₁.maxDailyRequests), st₁)

/-- incrementRequestCount: reset check, then increment and persist. -/
def incrementRequestCount (st : APIState) (today : String) : APIState :=
  let st₁ := checkAndResetDailyCounter st today
  { st₁ with dailyRequestCount := st₁.dailyRequestCount + 1 }

/-- validateSymbol: falsy strings are rejected, then the trimmed symbol
must match the anchored pattern of 1 to 10 ASCII letters or digits. -/
def validateSymbol (symbol : String) : Bool :=
  if symbol = "" then false
  else
    decide (1 ≤ (jsTrim symbol).length) && decide ((jsTrim symbol).length ≤ 10) &&
      (jsTrim symbol).toList.all Char.isAlphanum

/-- getFromCache: canonicalize, look up; a stale entry (older than the
expiry) is deleted on read and reported as a miss. -/
def getFromCache (st : APIState) (symbol : String) (now : Nat) :
    Option QuoteResult × APIState :=
  match mapGet st.cache (jsToUpper symbol) with
  | none => (none, st)
  | some cached =>
      if now - cached.timestamp > st.cacheExpiry then
        (none, { st with cache := mapDelete st.cache (jsToUpper symbol) })
      else (some cached.data, st)

/-- Cache size ceiling: the literal 100 in setCache. -/
def maxCacheEntries : Nat := 100

/-- setCache: write the entry with the current timestamp, then if the
size exceeds the ceiling delete the first key in insertion order. -/
def setCache (st : APIState) (symbol : String) (data : QuoteResult) (now : Nat) :
    APIState :=
  let c₁ := mapSet st.cache (jsToUpper symbol) { data := data, timestamp := now }
  let c₂ :=
    if c₁.length > maxCacheEntries then
      match c₁.head? with
      | some firstEntry => mapDelete c₁ firstEntry.1
      | none => c₁
    else c₁
  { st with cache := c₂ }

/-- fetchFromFinnhub: issue the outbound call (recorded as the returned
singleton call list) and normalize the outcome. A non-2xx status throws
inside the try and is converted by the catch; a transport error is
converted by the catch; a 2xx body with a positive current price is a
success rounded to two decimals; anything else is a data failure. -/
def fetchFromFinnhub (symbol : String) (resp : NetResponse) :
    QuoteResult × List String :=
  match resp with
  | NetResponse.httpError status statusText =>
      ({ success := false,
         error := some (jsOrString ("HTTP " ++ toString status ++ ": " ++ statusText)
           "Failed to fetch from Finnhub") }, [symbol])
  | NetResponse.netError message =>
      ({ success := false,
         error := some (jsOrString message "Failed to fetch from Finnhub") }, [symbol])
  | NetResponse.ok data =>
      match data.c with
      | some c =>
          if 0 < c then
            ({ success := true,
               price := some (round2 c),
               change := some (round2 (c - data.pc)),
               changePercent := some (round2 ((c - data.pc) / data.pc * 100)),
               volume := none,
               marketCap := none,
               currency := some "USD",
               source := some "finnhub" }, [symbol])
          else
            ({ success := false,
               error := some (jsOrOpt data.error "No price data returned from Finnhub") },
             [symbol])
      | none =>
          ({ success := false,
             error := some (jsOrOpt data.error "No price data returned from Finnhub") },
           [symbol])

/-- makeAPIRequest: uppercase the symbol, re-check quota (throwing on
exhaustion), increment the counter before the network call, call the
provider, and return the result when it succeeded, throwing otherwise.
Thrown errors are the Except.error branch. Returns result, state, next
oracle index, and the symbols for which an outbound call was issued. -/
def makeAPIRequest (st : APIState) (symbol : String) (today : String)
    (net : Nat → NetResponse) (idx : Nat) :
    Except String QuoteResult × APIState × Nat × List String :=
  let upperSymbol := (jsToUpper symbol)
  let q := canMakeRequest st today
  if !q.1 then (Except.error "Daily API quota exceeded", q.2, idx, [])
  else
    let st₂ := incrementRequestCount q.2 today
    let f := fetchFromFinnhub upperSymbol (net idx)
    if f.1.success then (Except.ok f.1, st₂, idx + 1, f.2)
    else (Except.error "Finnhub API failed", st₂, idx + 1, f.2)

/-- The result object returned by fetchStockPrice when the daily quota
denies admission. -/
def quotaDeniedResult : QuoteResult :=
  { success := false,
    error := some "Daily API quota exceeded. Please try again tomorrow." }

/-- The result object synthesized by batchFetch for symbols dropped by
the quota truncation. -/
def skippedResult : QuoteResult :=
  { success := false, error := some "Skipped due to daily quota limit" }

/-- Synchronous outcome of one fetchStockPrice call: an immediate quota
denial, an immediate cache hit, or an enqueue awaiting the drain. -/
inductive FetchOutcome where
  | quotaDenied (result : QuoteResult)
  | cacheHit (result : QuoteResult)
  | enqueued
  deriving DecidableEq

/-- fetchStockPrice, synchronous prefix: quota check first, then cache
lookup, then enqueue. The enqueued branch appends the symbol to the
request queue; the subsequent drain is processQueue. -/
def fetchStockPrice (st : APIState) (symbol : String) (now : Nat) (today : String) :
    FetchOutcome × APIState :=
  let q := canMakeRequest st today
  if !q.1 then (FetchOutcome.quotaDenied quotaDeniedResult, q.2)
  else
    let g := getFromCache q.2 symbol now
    match g.1 with
    | some cached => (FetchOutcome.cacheHit cached, g.2)
    | none =>
        (FetchOutcome.enqueued,
         { g.2 with requestQueue := g.2.requestQueue ++ [symbol] })

/-- Observable events of one drain: a promise resolution, or the
rate-limit delay awaited between two dispatches. -/
inductive QEvent where
  | resolvedEv (symbol : String) (result : QuoteResult)
  | delayed (ms : Nat)
  deriving DecidableEq

/-- Boolean test for a delay event. -/
def QEvent.isDelay : QEvent → Bool
  | QEvent.delayed _ => true
  | _ => false

/-- Outcome of a processQueue call: final state, the resolutions in the
order they were delivered, the event trace, the symbols for which an
outbound call was issued, and the next oracle index. -/
structure DrainResult where
  state : APIState
  resolutions : List (String × QuoteResult)
  trace : List QEvent
  netCalls : List String
  nextIdx : Nat
  deriving DecidableEq

/-- The while loop of processQueue, recursing over the queue contents
(nothing enqueues during the drain in this single-caller model): shift
the head item, try makeAPIRequest, on success write the cache and
resolve, on a thrown error resolve a failed result, and await the
rate-limit delay only when the queue is still non-empty. The exit of
the loop clears isProcessing. -/
def processQueueLoop (q : List String) (st : APIState) (now : Nat) (today : String)
    (net : Nat → NetResponse) (idx : Nat) : DrainResult :=
  match q with
  | [] =>
      { state := { st with isProcessing := false }, resolutions := [],
        trace := [], netCalls := [], nextIdx := idx }
  | symbol :: rest =>
      let st₀ : APIState := { st with requestQueue := rest }
      let m := makeAPIRequest st₀ symbol today net idx
      let step : (String × QuoteResult) × APIState :=
        match m.1 with
        | Except.ok result => ((symbol, result), setCache m.2.1 symbol result now)
        | Except.error e =>
            ((symbol,
              { success := false,
                error := some (jsOrString e "Failed to fetch stock data") }), m.2.1)
      let tailResult := processQueueLoop rest step.2 now today net m.2.2.1
      { state := tailResult.state,
        resolutions := step.1 :: tailResult.resolutions,
        trace := QEvent.resolvedEv step.1.1 step.1.2 ::
          ((if rest.isEmpty then ([] : List QEvent)
            else [QEvent.delayed step.2.rateLimitDelay]) ++ tailResult.trace),
        netCalls := m.2.2.2 ++ tailResult.netCalls,
        nextIdx := tailResult.nextIdx }

/-- processQueue: the guard returns at once when a drain is already
active or the queue is empty; otherwise set isProcessing and drain. -/
def processQueue (st : APIState) (now : Nat) (today : String)
    (net : Nat → NetResponse) (idx : Nat) : DrainResult :=
  if st.isProcessing || st.requestQueue.isEmpty then
    { state := st, resolutions := [], trace := [], netCalls := [], nextIdx := idx }
  else
    processQueueLoop st.requestQueue { st with isProcessing := true } now today net idx

/-- fetchStockPrice with the await of the returned promise inlined: the
immediate branches return directly, and the enqueued branch runs the
drain to completion and reads the settlement of the enqueued item. When
the client is idle at the call (empty queue, no drain in flight) the
drain resolves exactly the one new item, so its settlement is the head
resolution; every theorem below that uses this definition carries that
idleness as a hypothesis or instantiates an idle state. -/
def fetchPriceAwait (st : APIState) (symbol : String) (now : Nat) (today : String)
    (net : Nat → NetResponse) (idx : Nat) :
    QuoteResult × APIState × Nat × List String :=
  let f := fetchStockPrice st symbol now today
  match f.1 with
  | FetchOutcome.quotaDenied r => (r, f.2, idx, [])
  | FetchOutcome.cacheHit r => (r, f.2, idx, [])
  | FetchOutcome.enqueued =>
      let d := processQueue f.2 now today net idx
      ((d.resolutions.head?.map Prod.snd).getD { success := false },
       d.state, d.nextIdx, d.netCalls)

/-- One progress record delivered to the optional batch callback. -/
structure BatchProgress where
  current : Nat
  total : Nat
  percentage : ℤ
  quotaUsed : Nat
  quotaLimit : Nat
  deriving DecidableEq

/-- The for loop of batchFetch over the admitted symbols: await each
fetchStockPrice in turn, append the spread entry, and emit a progress
record. The catch around the await is unreachable because
fetchPriceAwait is total. -/
def batchFetchLoop (syms : List String) (st : APIState) (now : Nat) (today : String)
    (net : Nat → NetResponse) (idx : Nat) (done : Nat) (total : Nat) :
    List (String × QuoteResult) × List BatchProgress × APIState × Nat × List String :=
  match syms with
  | [] => ([], [], st, idx, [])
  | symbol :: rest =>
      let f := fetchPriceAwait st symbol now today net idx
      let progress : BatchProgress :=
        { current := done + 1, total := total,
          percentage := round ((((done + 1 : Nat) : ℚ) / (total : ℚ)) * 100),
          quotaUsed := f.2.1.dailyRequestCount,
          quotaLimit := f.2.1.maxDailyRequests }
      let tailResult := batchFetchLoop rest f.2.1 now today net f.2.2.1 (done + 1) total
      ((symbol, f.1) :: tailResult.1, progress :: tailResult.2.1,
       tailResult.2.2.1, tailResult.2.2.2.1, f.2.2.2 ++ tailResult.2.2.2.2)

/-- batchFetch: compute the quota headroom from the stored counter
(no reset check), truncate the input with slice, sequentially fetch the
admitted prefix, then synthesize skipped entries for the dropped
suffix, preserving input order. Returns entries, progress records,
final state, next oracle index, and issued network calls. -/
def batchFetch (st : APIState) (symbols : List String) (now : Nat) (today : String)
    (net : Nat → NetResponse) (idx : Nat) :
    List (String × QuoteResult) × List BatchProgress × APIState × Nat × List String :=
  let availableRequests : ℤ :=
    (st.maxDailyRequests : ℤ) - (st.dailyRequestCount : ℤ)
  let symbolsToFetch :=
    jsSliceEnd symbols (min (symbols.length : ℤ) availableRequests)
  let body :=
    batchFetchLoop symbolsToFetch st now today net idx 0 symbolsToFetch.length
  let skipped := (symbols.drop symbolsToFetch.length).map (fun s => (s, skippedResult))
  (body.1 ++ skipped, body.2.1, body.2.2.1, body.2.2.2.1, body.2.2.2.2)

/-- Iterated recordRequest: n successive incrementRequestCount calls on
the same day. -/
def recordN : Nat → APIState → String → APIState
  | 0, st, _ => st
  | n + 1, st, today => recordN n (incrementRequestCount st today) today

/-- Truth of the claim that a result mentions the quota in its error. -/
def mentionsQuota (r : QuoteResult) : Bool :=
  strContains (r.error.getD "") "quota"

/-- The cache invariant: every stored entry holds a successful result. -/
def cacheAllSuccess (st : APIState) : Prop :=
  ∀ p ∈ st.cache, p.2.data.success = true

/-- Modelled from the spec: the symbol format the spec states for
validation, 1 to 10 alphanumeric characters (of the trimmed string,
which is what the code matches). Used to compare validateSymbol with
the words of the spec. -/
def wellFormedSymbol (s : String) : Prop :=
  1 ≤ (jsTrim s).length ∧ (jsTrim s).length ≤ 10 ∧ ∀ c ∈ (jsTrim s).toList, c.isAlphanum = true

/-- Repeated setCache over a list of symbols, all with the same result
and timestamp; the harness used to state the eviction property. -/
def insertAll (st : APIState) (syms : List String) (r : QuoteResult) (now : Nat) :
    APIState :=
  match syms with
  | [] => st
  | s :: rest => insertAll (setCache st s r now) rest r now

theorem mapGet_mapSet_self {β : Type} (m : List (String × β)) (k : String) (v : β) :
    mapGet (mapSet m k v) k = some v := by
  induction m with
  | nil => simp [mapSet, mapGet]
  | cons p rest ih =>
      obtain ⟨k₁, v₁⟩ := p
      by_cases h : k₁ = k
      · simp [mapSet, mapGet, h]
      · simp [mapSet, mapGet, h, ih]

theorem mapGet_mapDelete_self {β : Type} (m : List (String × β)) (k : String) :
    mapGet (mapDelete m k) k = none := by
  induction m with
  | nil => simp [mapDelete, mapGet]
  | cons p rest ih =>
      obtain ⟨k₁, v₁⟩ := p
      by_cases h : k₁ = k
      · simp [mapDelete, h, ih]
      · simp [mapDelete, mapGet, h, ih]

theorem mapGet_mapDelete_ne {β : Type} (m : List (String × β)) (kd k : String)
    (h : kd ≠ k) : mapGet (mapDelete m kd) k = mapGet m k := by
  induction m with
  | nil => simp [mapDelete]
  | cons p rest ih =>
      obtain ⟨k₁, v₁⟩ := p
      by_cases h₁ : k₁ = kd
      · subst h₁
        simp [mapDelete, mapGet, h, ih]
      · simp [mapDelete, mapGet, h₁, ih]

theorem mapGet_eq_none_iff {β : Type} (m : List (String × β)) (k : String) :
    mapGet m k = none ↔ k ∉ m.map Prod.fst := by
  induction m with
  | nil => simp [mapGet]
  | cons p rest ih =>
      obtain ⟨k₁, v₁⟩ := p
      by_cases h : k₁ = k
      · simp [mapGet, h]
      · simp [mapGet, h, ih, Ne.symm h]

theorem mapSet_fresh {β : Type} (m : List (String × β)) (k : String) (v : β)
    (h : mapGet m k = none) : mapSet m k v = m ++ [(k, v)] := by
  induction m with
  | nil => simp [mapSet]
  | cons p rest ih =>
      obtain ⟨k₁, v₁⟩ := p
      by_cases h₁ : k₁ = k
      · simp [mapGet, h₁] at h
      · simp only [mapGet, if_neg h₁] at h
        simp [mapSet, h₁, ih h]

theorem mapSet_length_of_present {β : Type} (m : List (String × β)) (k : String) (v : β)
    (h : mapGet m k ≠ none) : (mapSet m k v).length = m.length := by
  induction m with
  | nil => simp [mapGet] at h
  | cons p rest ih =>
      obtain ⟨k₁, v₁⟩ := p
      by_cases h₁ : k₁ = k
      · simp [mapSet, h₁]
      · simp only [mapGet, if_neg h₁] at h
        simp [mapSet, h₁, ih h]

theorem mapDelete_of_not_mem {β : Type} (m : List (String × β)) (k : String)
    (h : k ∉ m.map Prod.fst) : mapDelete m k = m := by
  induction m with
  | nil => simp [mapDelete]
  | cons p rest ih =>
      obtain ⟨k₁, v₁⟩ := p
      simp only [List.map_cons, List.mem_cons, not_or] at h
      simp [mapDelete, Ne.symm h.1, ih h.2]

theorem mem_mapDelete {β : Type} (m : List (String × β)) (k : String)
    (p : String × β) (h : p ∈ mapDelete m k) : p ∈ m := by
  induction m with
  | nil => simp [mapDelete] at h
  | cons q rest ih =>
      obtain ⟨k₁, v₁⟩ := q
      by_cases h₁ : k₁ = k
      · simp only [mapDelete, if_pos h₁] at h
        exact List.mem_cons_of_mem _ (ih h)
      · simp only [mapDelete, if_neg h₁, List.mem_cons] at h
        rcases h with h | h
        · exact h ▸ List.mem_cons_self _ _
        · exact List.mem_cons_of_mem _ (ih h)

theorem mem_mapSet {β : Type} (m : List (String × β)) (k : String) (v : β)
    (p : String × β) (h : p ∈ mapSet m k v) : p ∈ m ∨ p = (k, v) := by
  induction m with
  | nil => simpa [mapSet] using h
  | cons q rest ih =>
      obtain ⟨k₁, v₁⟩ := q
      by_cases h₁ : k₁ = k
      · simp only [mapSet, if_pos h₁, List.mem_cons] at h
        rcases h with h | h
        · exact Or.inr (by simpa [h₁] using h)
        · exact Or.inl (List.mem_cons_of_mem _ h)
      · simp only [mapSet, if_neg h₁, List.mem_cons] at h
        rcases h with h | h
        · exact Or.inl (h ▸ List.mem_cons_self _ _)
        · rcases ih h with h₂ | h₂
          · exact Or.inl (List.mem_cons_of_mem _ h₂)
          · exact Or.inr h₂

/-- A setCache into a cache within the size ceiling leaves the fresh
entry readable: the eviction, when it fires, removes the head key, and
the head key is never the key just written while the pre-state obeys
the ceiling. -/
theorem setCache_mapGet (st : APIState) (symbol : String) (r : QuoteResult) (now : Nat)
    (hsize : st.cache.length ≤ maxCacheEntries) :
    mapGet (setCache st symbol r now).cache (jsToUpper symbol) =
      some { data := r, timestamp := now } := by
  unfold setCache
  set e : CacheEntry := { data := r, timestamp := now } with he
  by_cases hmem : mapGet st.cache (jsToUpper symbol) = none
  · have hfresh := mapSet_fresh st.cache (jsToUpper symbol) e hmem
    by_cases hgt : (mapSet st.cache (jsToUpper symbol) e).length > maxCacheEntries
    · have hlen2 : st.cache.length + 1 > maxCacheEntries := by
        rw [hfresh] at hgt
        simpa using hgt
      obtain ⟨p₀, rest, hc⟩ : ∃ p₀ rest, st.cache = p₀ :: rest := by
        cases hcc : st.cache with
        | nil => rw [hcc] at hlen2; simp [maxCacheEntries] at hlen2
        | cons a b => exact ⟨a, b, rfl⟩
      have hhead : (mapSet st.cache (jsToUpper symbol) e).head? = some p₀ := by
        rw [hfresh, hc]
        rfl
      have hne : p₀.1 ≠ (jsToUpper symbol) := by
        have hnm := (mapGet_eq_none_iff st.cache (jsToUpper symbol)).mp hmem
        rw [hc] at hnm
        simp only [List.map_cons, List.mem_cons, not_or] at hnm
        exact fun hx => hnm.1 hx.symm
      simp only [if_pos hgt, hhead]
      rw [mapGet_mapDelete_ne _ _ _ hne]
      exact mapGet_mapSet_self _ _ _
    · simp only [if_neg hgt]
      exact mapGet_mapSet_self _ _ _
  · have hlen : (mapSet st.cache (jsToUpper symbol) e).length = st.cache.length :=
      mapSet_length_of_present _ _ _ hmem
    have hnogt : ¬ (mapSet st.cache (jsToUpper symbol) e).length > maxCacheEntries := by
      omega
    simp only [if_neg hnogt]
    exact mapGet_mapSet_self _ _ _

/-- C7: a put at time T is readable at time T + ttl - 1 with the stored
result, and at time T + ttl + 1 it is a miss whose read lazily deletes
the expired entry from the cache map. (The pre-state is any state
within the cache size ceiling, with a positive ttl.) -/
theorem cache_ttl_put_get (st : APIState) (symbol : String) (r : QuoteResult) (T : Nat)
    (hsize : st.cache.length ≤ maxCacheEntries) (httl : 1 ≤ st.cacheExpiry) :
    (getFromCache (setCache st symbol r T) symbol (T + st.cacheExpiry - 1)).1 = some r ∧
    (getFromCache (setCache st symbol r T) symbol (T + st.cacheExpiry + 1)).1 = none ∧
    mapGet (getFromCache (setCache st symbol r T) symbol
        (T + st.cacheExpiry + 1)).2.cache (jsToUpper symbol) = none := by
  have hget := setCache_mapGet st symbol r T hsize
  have hexp : (setCache st symbol r T).cacheExpiry = st.cacheExpiry := by
    simp [setCache]
  have hfresh : ¬ (T + st.cacheExpiry - 1 - T > st.cacheExpiry) := by omega
  have hstale : T + st.cacheExpiry + 1 - T > st.cacheExpiry := by omega
  refine ⟨?_, ?_, ?_⟩
  · simp [getFromCache, hget, hexp, hfresh]
  · simp [getFromCache, hget, hexp, hstale]
  · simp [getFromCache, hget, hexp, hstale, mapGet_mapDelete_self]

/-- Splitting a repeated insertion. -/
theorem insertAll_append (a b : List String) (st : APIState) (r : QuoteResult) (now : Nat) :
    insertAll st (a ++ b) r now = insertAll (insertAll st a r now) b r now := by
  induction a generalizing st with
  | nil => simp [insertAll]
  | cons x xs ih => simp only [List.cons_append, insertAll]; exact ih _

/-- setCache of a fresh key while strictly below the ceiling appends
the new entry and evicts nothing. -/
theorem setCache_fresh_cache (st : APIState) (s : String) (r : QuoteResult) (now : Nat)
    (hmem : mapGet st.cache (jsToUpper s) = none)
    (hsize : st.cache.length + 1 ≤ maxCacheEntries) :
    (setCache st s r now).cache =
      st.cache ++ [((jsToUpper s), { data := r, timestamp := now })] := by
  have hfresh := mapSet_fresh st.cache (jsToUpper s) { data := r, timestamp := now } hmem
  have hng : ¬ (st.cache ++
      [((jsToUpper s), ({ data := r, timestamp := now } : CacheEntry))]).length >
        maxCacheEntries := by
    simp only [List.length_append, List.length_singleton]
    omega
  simp only [setCache, hfresh]
  rw [if_neg hng]

/-- setCache of a fresh key at exactly the ceiling appends the new
entry and then evicts the head entry (the oldest-inserted key). -/
theorem setCache_evict (st : APIState) (s : String) (r : QuoteResult) (now : Nat)
    (q₀ : String × CacheEntry) (qrest : List (String × CacheEntry))
    (hc : st.cache = q₀ :: qrest)
    (hmem : mapGet st.cache (jsToUpper s) = none)
    (hsize : st.cache.length = maxCacheEntries)
    (hq₀ : q₀.1 ∉ qrest.map Prod.fst ++ [(jsToUpper s)]) :
    (setCache st s r now).cache =
      qrest ++ [((jsToUpper s), { data := r, timestamp := now })] := by
  have hfresh := mapSet_fresh st.cache (jsToUpper s) { data := r, timestamp := now } hmem
  have hlen2 : qrest.length + 1 = maxCacheEntries := by
    rw [hc] at hsize
    simpa using hsize
  have hgt : (q₀ :: (qrest ++
      [((jsToUpper s), ({ data := r, timestamp := now } : CacheEntry))])).length >
        maxCacheEntries := by
    simp only [List.length_cons, List.length_append, List.length_singleton]
    omega
  have hkeys : q₀.1 ∉ (qrest ++
      [((jsToUpper s), ({ data := r, timestamp := now } : CacheEntry))]).map Prod.fst := by
    simpa using hq₀
  rw [hc] at hfresh
  simp only [setCache, hc, hfresh, List.cons_append]
  rw [if_pos hgt]
  simp only [List.head?_cons]
  simp [mapDelete, mapDelete_of_not_mem _ _ hkeys]

/-- Inserting fresh, pairwise-distinct symbols while the total stays
within the ceiling appends their canonical keys in insertion order. -/
theorem insertAll_keys (syms : List String) (st : APIState) (r : QuoteResult) (now : Nat)
    (hnodup : (st.cache.map Prod.fst ++ syms.map jsToUpper).Nodup)
    (hlen : st.cache.length + syms.length ≤ maxCacheEntries) :
    (insertAll st syms r now).cache.map Prod.fst =
      st.cache.map Prod.fst ++ syms.map jsToUpper := by
  induction syms generalizing st with
  | nil => simp [insertAll]
  | cons s rest ih =>
      simp only [List.map_cons] at hnodup
      obtain ⟨hK, hSR, hdisj⟩ := List.nodup_append.mp hnodup
      have hmem : mapGet st.cache (jsToUpper s) = none := by
        rw [mapGet_eq_none_iff]
        intro hin
        exact hdisj hin (List.mem_cons_self _ _)
      have hsz : st.cache.length + 1 ≤ maxCacheEntries := by
        simp only [List.length_cons] at hlen
        omega
      have hset := setCache_fresh_cache st s r now hmem hsz
      have hkeys : (setCache st s r now).cache.map Prod.fst =
          st.cache.map Prod.fst ++ [(jsToUpper s)] := by
        rw [hset]
        simp
      have hrec := ih (setCache st s r now) ?hnd ?hln
      case hnd =>
        rw [hkeys, List.append_assoc, List.singleton_append]
        exact hnodup
      case hln =>
        have : (setCache st s r now).cache.length = st.cache.length + 1 := by
          rw [hset]
          simp
        simp only [List.length_cons] at hlen
        omega
      simp only [insertAll]
      rw [hrec, hkeys, List.append_assoc, List.singleton_append, List.map_cons]

/-- C8: inserting maxCacheEntries + 1 symbols with pairwise-distinct
canonical forms into an empty cache leaves exactly maxCacheEntries
entries, the surviving keys are the canonical symbols after the first
in insertion order, and the first-inserted symbol has been evicted. -/
theorem cache_eviction_oldest (st : APIState) (syms : List String) (r : QuoteResult)
    (now : Nat) (hcache : st.cache = [])
    (hlen : syms.length = maxCacheEntries + 1)
    (hdist : (syms.map jsToUpper).Nodup) :
    (insertAll st syms r now).cache.length = maxCacheEntries ∧
    (insertAll st syms r now).cache.map Prod.fst = (syms.map jsToUpper).drop 1 ∧
    (syms.head?.map fun s₀ =>
        mapGet (insertAll st syms r now).cache (jsToUpper s₀)) = some none := by
  have hsplit : syms.take maxCacheEntries ++ syms.drop maxCacheEntries = syms :=
    List.take_append_drop _ _
  have hfl : (syms.take maxCacheEntries).length = maxCacheEntries := by
    rw [List.length_take]
    omega
  have hbl : (syms.drop maxCacheEntries).length = 1 := by
    rw [List.length_drop]
    omega
  obtain ⟨z, hz⟩ := List.length_eq_one.mp hbl
  have hueq : (syms.take maxCacheEntries).map jsToUpper ++ [(jsToUpper z)] =
      syms.map jsToUpper := by
    have := congrArg (List.map jsToUpper) hsplit
    rw [List.map_append, hz] at this
    simpa using this
  have hins : insertAll st syms r now =
      setCache (insertAll st (syms.take maxCacheEntries) r now) z r now := by
    conv_lhs => rw [← hsplit]
    rw [insertAll_append, hz]
    rfl
  have hdist2 : ((syms.take maxCacheEntries).map jsToUpper ++ [(jsToUpper z)]).Nodup := by
    rw [hueq]
    exact hdist
  have hmidnodup :
      (st.cache.map Prod.fst ++ (syms.take maxCacheEntries).map jsToUpper).Nodup := by
    rw [hcache]
    simp only [List.map_nil, List.nil_append]
    exact List.Nodup.sublist (List.sublist_append_left _ _) hdist2
  have hmidlen : st.cache.length + (syms.take maxCacheEntries).length ≤ maxCacheEntries := by
    rw [hcache, hfl]
    simp
  have hmid := insertAll_keys (syms.take maxCacheEntries) st r now hmidnodup hmidlen
  rw [hcache] at hmid
  simp only [List.map_nil, List.nil_append] at hmid
  have hmidclen : (insertAll st (syms.take maxCacheEntries) r now).cache.length =
      maxCacheEntries := by
    have := congrArg List.length hmid
    rw [List.length_map, List.length_map] at this
    rw [this, hfl]
  -- the mid cache is non-empty; name its head entry
  cases hmc : (insertAll st (syms.take maxCacheEntries) r now).cache with
  | nil =>
      rw [hmc] at hmidclen
      simp [maxCacheEntries] at hmidclen
  | cons q₀ qrest =>
      rw [hmc] at hmid
      -- the front symbols are non-empty as well
      cases hft : syms.take maxCacheEntries with
      | nil =>
          rw [hft] at hfl
          simp [maxCacheEntries] at hfl
      | cons f₀ frontRest =>
          rw [hft] at hmid
          simp only [List.map_cons] at hmid
          have hq0 : q₀.1 = (jsToUpper f₀) := by
            injection hmid
          have hqrest : qrest.map Prod.fst = frontRest.map jsToUpper := by
            injection hmid
          have hnodup2 : ((jsToUpper f₀) :: (frontRest.map jsToUpper ++ [(jsToUpper z)])).Nodup := by
            rw [← List.cons_append]
            rw [← List.map_cons, ← hft, hueq]
            exact hdist
          have hzfresh :
              mapGet (insertAll st (syms.take maxCacheEntries) r now).cache (jsToUpper z) = none := by
            rw [mapGet_eq_none_iff, hmc]
            rw [List.map_cons, hq0, hqrest]
            intro hin
            have hnd := hnodup2
            rw [List.nodup_cons] at hnd
            rcases List.mem_cons.mp hin with h | h
            · exact hnd.1 (h ▸ List.mem_append_right _ (List.mem_singleton_self _))
            · have := (List.nodup_append.mp hnd.2).2.2
              exact this h (List.mem_singleton_self _)
          have hq₀fresh : q₀.1 ∉ qrest.map Prod.fst ++ [(jsToUpper z)] := by
            rw [hq0, hqrest]
            have hnd := hnodup2
            rw [List.nodup_cons] at hnd
            exact hnd.1
          have hstlen : (insertAll st (syms.take maxCacheEntries) r now).cache.length =
              maxCacheEntries := hmidclen
          have hev := setCache_evict (insertAll st (syms.take maxCacheEntries) r now) z r now
            q₀ qrest hmc hzfresh hstlen hq₀fresh
          have hfinal : (insertAll st syms r now).cache =
              qrest ++ [((jsToUpper z), { data := r, timestamp := now })] := by
            rw [hins, hev]
          have hkeysfinal : (insertAll st syms r now).cache.map Prod.fst =
              frontRest.map jsToUpper ++ [(jsToUpper z)] := by
            rw [hfinal, List.map_append, hqrest]
            rfl
          have hdrop : (syms.map jsToUpper).drop 1 =
              frontRest.map jsToUpper ++ [(jsToUpper z)] := by
            rw [← hueq, hft]
            simp
          refine ⟨?_, ?_, ?_⟩
          · rw [hfinal]
            have hql : qrest.length + 1 = maxCacheEntries := by
              rw [hmc] at hmidclen
              simpa using hmidclen
            simp only [List.length_append, List.length_singleton]
            omega
          · rw [hkeysfinal, hdrop]
          · have hhd : syms.head? = some f₀ := by
              conv_lhs => rw [← hsplit, hft]
              rfl
            rw [hhd]
            refine congrArg some ?_
            rw [mapGet_eq_none_iff, hkeysfinal]
            have hnd := hnodup2
            rw [List.nodup_cons] at hnd
            intro hin
            rw [← hqrest] at hnd hin
            exact hnd.1 hin


/-- The concrete 101-symbol list used to witness C8. -/
def c8Syms : List String := (List.range (maxCacheEntries + 1)).map (fun i => "S" ++ toString i)

/-- Witness for C8 at a concrete run of 101 insertions. -/
theorem cache_eviction_oldest_witness :
    ((initialState 0 "d").cache = [] ∧ c8Syms.length = maxCacheEntries + 1 ∧
      (c8Syms.map jsToUpper).Nodup) ∧
    (insertAll (initialState 0 "d") c8Syms quotaDeniedResult 3).cache.length = maxCacheEntries ∧
    (insertAll (initialState 0 "d") c8Syms quotaDeniedResult 3).cache.map Prod.fst =
      (c8Syms.map jsToUpper).drop 1 ∧
    (c8Syms.head?.map fun s₀ =>
        mapGet (insertAll (initialState 0 "d") c8Syms quotaDeniedResult 3).cache (jsToUpper s₀)) =
      some none :=
  ⟨⟨rfl, by decide, by decide⟩,
   cache_eviction_oldest (initialState 0 "d") c8Syms quotaDeniedResult 3 rfl
     (by decide) (by decide)⟩

/-- Witness for C7 at a concrete state and time. -/
theorem cache_ttl_put_get_witness :
    ((initialState 0 "d").cache.length ≤ maxCacheEntries ∧
      1 ≤ (initialState 0 "d").cacheExpiry) ∧
    (getFromCache (setCache (initialState 0 "d") "aapl" quotaDeniedResult 7) "aapl"
        (7 + (initialState 0 "d").cacheExpiry - 1)).1 = some quotaDeniedResult ∧
    (getFromCache (setCache (initialState 0 "d") "aapl" quotaDeniedResult 7) "aapl"
        (7 + (initialState 0 "d").cacheExpiry + 1)).1 = none ∧
    mapGet (getFromCache (setCache (initialState 0 "d") "aapl" quotaDeniedResult 7) "aapl"
        (7 + (initialState 0 "d").cacheExpiry + 1)).2.cache (jsToUpper "aapl") = none :=
  ⟨⟨by decide, by decide⟩,
   cache_ttl_put_get (initialState 0 "d") "aapl" quotaDeniedResult 7
     (by decide) (by decide)⟩

/-- A reset check on the day already stamped is a no-op. -/
theorem checkAndReset_today (st : APIState) (today : String)
    (h : st.lastResetDate = today) : checkAndResetDailyCounter st today = st := by
  simp [checkAndResetDailyCounter, h]

/-- n recordRequest calls on the stamped day add n to the counter and
change nothing else. -/
theorem recordN_today (n : Nat) (st : APIState) (today : String)
    (h : st.lastResetDate = today) :
    recordN n st today = { st with dailyRequestCount := st.dailyRequestCount + n } := by
  induction n generalizing st with
  | zero => simp [recordN]
  | succ n ih =>
      rw [recordN]
      have hinc : incrementRequestCount st today =
          { st with dailyRequestCount := st.dailyRequestCount + 1 } := by
        simp [incrementRequestCount, checkAndReset_today st today h]
      rw [hinc, ih { st with dailyRequestCount := st.dailyRequestCount + 1 } (by simp [h])]
      have harith : st.dailyRequestCount + 1 + n = st.dailyRequestCount + (n + 1) := by
        omega
      simp [harith]

/-- A denied admission makes fetchStockPrice resolve the quota failure
at once, with no cache read, no enqueue, and no network call. -/
theorem fetchPriceAwait_quotaDenied (st : APIState) (sym : String) (now : Nat)
    (today : String) (net : Nat → NetResponse) (idx : Nat)
    (hq : (canMakeRequest st today).1 = false) :
    fetchPriceAwait st sym now today net idx =
      (quotaDeniedResult, (canMakeRequest st today).2, idx, []) := by
  simp [fetchPriceAwait, fetchStockPrice, hq]

/-- An admitted call whose symbol has a fresh cache entry returns the
cached result at once, with no enqueue and no network call. -/
theorem fetchPriceAwait_cacheHit (st : APIState) (sym : String) (now : Nat)
    (today : String) (net : Nat → NetResponse) (idx : Nat) (r : QuoteResult)
    (hq : (canMakeRequest st today).1 = true)
    (hr : (getFromCache (canMakeRequest st today).2 sym now).1 = some r) :
    fetchPriceAwait st sym now today net idx =
      (r, (getFromCache (canMakeRequest st today).2 sym now).2, idx, []) := by
  simp [fetchPriceAwait, fetchStockPrice, hq, hr]

/-- C1: starting from a zero counter on the stamped day, after exactly
maxDailyRequests recordRequest calls canMakeRequest answers false, and
a fetchStockPrice call for an uncached symbol resolves a failed result
whose error mentions the quota, issuing no network call, enqueuing
nothing, and leaving the state as it was. -/
theorem quota_admission_after_limit (st : APIState) (today sym : String)
    (now : Nat) (net : Nat → NetResponse) (idx : Nat)
    (hdate : st.lastResetDate = today) (hcount : st.dailyRequestCount = 0)
    (_hmiss : mapGet (recordN st.maxDailyRequests st today).cache (jsToUpper sym) = none) :
    (canMakeRequest (recordN st.maxDailyRequests st today) today).1 = false ∧
    fetchPriceAwait (recordN st.maxDailyRequests st today) sym now today net idx =
      (quotaDeniedResult, recordN st.maxDailyRequests st today, idx, []) ∧
    quotaDeniedResult.success = false ∧
    mentionsQuota quotaDeniedResult = true := by
  have hL : recordN st.maxDailyRequests st today =
      { st with dailyRequestCount := st.maxDailyRequests } := by
    rw [recordN_today _ _ _ hdate, hcount]
    simp
  have hdL : (recordN st.maxDailyRequests st today).lastResetDate = today := by
    rw [hL]
    exact hdate
  have hreset := checkAndReset_today _ _ hdL
  have hcm1 : (canMakeRequest (recordN st.maxDailyRequests st today) today).1 = false := by
    simp only [canMakeRequest, hreset]
    rw [hL]
    simp
  have hcm2 : (canMakeRequest (recordN st.maxDailyRequests st today) today).2 =
      recordN st.maxDailyRequests st today := by
    simp only [canMakeRequest, hreset]
  refine ⟨hcm1, ?_, rfl, by decide⟩
  rw [fetchPriceAwait_quotaDenied _ _ _ _ _ _ hcm1, hcm2]

set_option maxRecDepth 8192 in
/-- Witness for C1 at a concrete state and day. -/
theorem quota_admission_after_limit_witness :
    ((initialState 0 "d").lastResetDate = "d" ∧
      (initialState 0 "d").dailyRequestCount = 0 ∧
      mapGet (recordN (initialState 0 "d").maxDailyRequests
        (initialState 0 "d") "d").cache (jsToUpper "AAPL") = none) ∧
    (canMakeRequest (recordN (initialState 0 "d").maxDailyRequests
        (initialState 0 "d") "d") "d").1 = false ∧
    fetchPriceAwait (recordN (initialState 0 "d").maxDailyRequests
        (initialState 0 "d") "d") "AAPL" 5 "d" (fun _ => NetResponse.netError "x") 0 =
      (quotaDeniedResult,
        recordN (initialState 0 "d").maxDailyRequests (initialState 0 "d") "d", 0, []) ∧
    quotaDeniedResult.success = false ∧
    mentionsQuota quotaDeniedResult = true :=
  ⟨⟨rfl, rfl, by decide⟩,
   quota_admission_after_limit (initialState 0 "d") "d" "AAPL" 5
     (fun _ => NetResponse.netError "x") 0 rfl rfl (by decide)⟩

/-- The fresh cached result of the C2 counterexample. -/
def c2Result : QuoteResult :=
  { success := true, price := some 100, currency := some "USD", source := some "finnhub" }

/-- A state with the daily quota exhausted today and a fresh cache
entry for AAPL. -/
def c2State : APIState :=
  { cache := [("AAPL", { data := c2Result, timestamp := 0 })],
    dailyRequestCount := 50, lastResetDate := "d" }

/-- C2 counterexample: with the quota exhausted and a fresh cache entry
present, fetchStockPrice does NOT serve the cache hit; the quota check
runs first and the call resolves the quota failure, refuting the
claimed cache-before-quota ordering. -/
theorem quota_checked_before_cache_cex :
    (getFromCache c2State "AAPL" 1).1 = some c2Result ∧
    (fetchStockPrice c2State "AAPL" 1 "d").1 = FetchOutcome.quotaDenied quotaDeniedResult ∧
    (fetchStockPrice c2State "AAPL" 1 "d").1 ≠ FetchOutcome.cacheHit c2Result := by
  decide

/-- C2 as amended: fetchStockPrice checks the quota before the cache.
When admission is denied, every call (cache hit or miss) resolves the
quota failure without touching the queue or the network; when
admission is granted and the symbol has a fresh cache entry, the
cached result is returned immediately with no enqueue and no network
call. The two scenarios are stated over two independent instances. -/
theorem quota_checked_before_cache (st₁ st₂ : APIState) (sym₁ sym₂ : String)
    (now₁ now₂ : Nat) (today₁ today₂ : String) (net₁ net₂ : Nat → NetResponse)
    (idx₁ idx₂ : Nat) (r : QuoteResult)
    (hq₁ : (canMakeRequest st₁ today₁).1 = false)
    (hq₂ : (canMakeRequest st₂ today₂).1 = true)
    (hr : (getFromCache (canMakeRequest st₂ today₂).2 sym₂ now₂).1 = some r) :
    fetchPriceAwait st₁ sym₁ now₁ today₁ net₁ idx₁ =
      (quotaDeniedResult, (canMakeRequest st₁ today₁).2, idx₁, []) ∧
    fetchPriceAwait st₂ sym₂ now₂ today₂ net₂ idx₂ =
      (r, (getFromCache (canMakeRequest st₂ today₂).2 sym₂ now₂).2, idx₂, []) :=
  ⟨fetchPriceAwait_quotaDenied _ _ _ _ _ _ hq₁,
   fetchPriceAwait_cacheHit _ _ _ _ _ _ _ hq₂ hr⟩

/-- Witness for the amended C2: the exhausted scenario is c2State, the
admitted cache-hit scenario the same cache with a zero counter. -/
theorem quota_checked_before_cache_witness :
    ((canMakeRequest c2State "d").1 = false ∧
      (canMakeRequest { c2State with dailyRequestCount := 0 } "d").1 = true ∧
      (getFromCache (canMakeRequest { c2State with dailyRequestCount := 0 } "d").2
        "AAPL" 1).1 = some c2Result) ∧
    fetchPriceAwait c2State "AAPL" 1 "d" (fun _ => NetResponse.netError "x") 0 =
      (quotaDeniedResult, (canMakeRequest c2State "d").2, 0, []) ∧
    fetchPriceAwait { c2State with dailyRequestCount := 0 } "AAPL" 1 "d"
        (fun _ => NetResponse.netError "x") 0 =
      (c2Result,
        (getFromCache (canMakeRequest { c2State with dailyRequestCount := 0 } "d").2
          "AAPL" 1).2, 0, []) :=
  ⟨⟨by decide, by decide, by decide⟩,
   quota_checked_before_cache c2State { c2State with dailyRequestCount := 0 }
     "AAPL" "AAPL" 1 1 "d" "d" (fun _ => NetResponse.netError "x")
     (fun _ => NetResponse.netError "x") 0 0 c2Result
     (by decide) (by decide) (by decide)⟩

/-- Every queued item is resolved exactly once, in FIFO order of the
queue contents. -/
theorem processQueueLoop_fst (q : List String) (now : Nat) (today : String)
    (net : Nat → NetResponse) : ∀ (st : APIState) (idx : Nat),
    (processQueueLoop q st now today net idx).resolutions.map Prod.fst = q := by
  induction q with
  | nil => intro st idx; simp [processQueueLoop]
  | cons symbol rest ih =>
      intro st idx
      cases hm : (makeAPIRequest { st with requestQueue := rest } symbol today net idx).1 with
      | ok r => simp [processQueueLoop, hm, ih]
      | error e => simp [processQueueLoop, hm, ih]

/-- The rate-limit delay is awaited exactly between two consecutive
dispatches: a drain of n items awaits n - 1 delays. -/
theorem processQueueLoop_delays (q : List String) (now : Nat) (today : String)
    (net : Nat → NetResponse) : ∀ (st : APIState) (idx : Nat),
    (processQueueLoop q st now today net idx).trace.countP QEvent.isDelay =
      q.length - 1 := by
  induction q with
  | nil => intro st idx; simp [processQueueLoop]
  | cons symbol rest ih =>
      intro st idx
      cases rest with
      | nil => simp [processQueueLoop, QEvent.isDelay]
      | cons r rs =>
          cases hm : (makeAPIRequest { st with requestQueue := r :: rs } symbol today net idx).1 with
          | ok res =>
              rw [processQueueLoop]
              simp only [hm, List.countP_cons, List.countP_append, List.isEmpty_cons]
              rw [ih]
              simp [QEvent.isDelay, Nat.add_comm]
          | error e =>
              rw [processQueueLoop]
              simp only [hm, List.countP_cons, List.countP_append, List.isEmpty_cons]
              rw [ih]
              simp [QEvent.isDelay, Nat.add_comm]

/-- A non-trivial drain trace ends with a resolution event, never with
a delay: no delay is awaited after the last dispatch. -/
theorem processQueueLoop_shape (q : List String) (now : Nat) (today : String)
    (net : Nat → NetResponse) (hq : q ≠ []) : ∀ (st : APIState) (idx : Nat),
    ∃ t s r, (processQueueLoop q st now today net idx).trace =
      t ++ [QEvent.resolvedEv s r] := by
  induction q with
  | nil => exact absurd rfl hq
  | cons symbol rest ih =>
      intro st idx
      cases rest with
      | nil =>
          cases hm : (makeAPIRequest { st with requestQueue := [] } symbol today net idx).1 with
          | ok result =>
              exact ⟨[], symbol, result, by simp [processQueueLoop, hm]⟩
          | error e =>
              exact ⟨[], symbol,
                { success := false, error := some (jsOrString e "Failed to fetch stock data") },
                by simp [processQueueLoop, hm]⟩
      | cons r rs =>
          cases hm : (makeAPIRequest { st with requestQueue := r :: rs } symbol today net idx).1 with
          | ok result =>
              obtain ⟨t₂, s₂, res₂, ht₂⟩ := ih (by simp)
                (setCache (makeAPIRequest { st with requestQueue := r :: rs } symbol
                  today net idx).2.1 symbol result now)
                (makeAPIRequest { st with requestQueue := r :: rs } symbol today net idx).2.2.1
              refine ⟨QEvent.resolvedEv symbol result ::
                QEvent.delayed (setCache (makeAPIRequest { st with requestQueue := r :: rs }
                  symbol today net idx).2.1 symbol result now).rateLimitDelay :: t₂, s₂, res₂, ?_⟩
              rw [processQueueLoop]
              simp only [hm]
              simp [ht₂]
          | error e =>
              obtain ⟨t₂, s₂, res₂, ht₂⟩ := ih (by simp)
                (makeAPIRequest { st with requestQueue := r :: rs } symbol today net idx).2.1
                (makeAPIRequest { st with requestQueue := r :: rs } symbol today net idx).2.2.1
              refine ⟨QEvent.resolvedEv symbol
                  { success := false, error := some (jsOrString e "Failed to fetch stock data") } ::
                QEvent.delayed (makeAPIRequest { st with requestQueue := r :: rs }
                  symbol today net idx).2.1.rateLimitDelay :: t₂, s₂, res₂, ?_⟩
              rw [processQueueLoop]
              simp only [hm]
              simp [ht₂]

/-- C3: a drain resolves the queued items in strict FIFO order of
enqueue; a processQueue call while a drain is already active is a
no-op (no second concurrent drain); the inter-dispatch delay is
awaited exactly between consecutive dispatches (n - 1 delays for n
items) and the trace never ends with a delay. -/
theorem fifo_single_drain (st : APIState) (now : Nat) (today : String)
    (net : Nat → NetResponse) (idx : Nat) (hidle : st.isProcessing = false) :
    (processQueue st now today net idx).resolutions.map Prod.fst = st.requestQueue ∧
    processQueue { st with isProcessing := true } now today net idx =
      { state := { st with isProcessing := true }, resolutions := [], trace := [],
        netCalls := [], nextIdx := idx } ∧
    (processQueue st now today net idx).trace.countP QEvent.isDelay =
      st.requestQueue.length - 1 ∧
    (processQueue st now today net idx).trace.getLast?.map QEvent.isDelay ≠ some true := by
  refine ⟨?_, by simp [processQueue], ?_, ?_⟩
  · cases hqe : st.requestQueue with
    | nil => simp [processQueue, hqe]
    | cons a l =>
        have hrun : processQueue st now today net idx =
            processQueueLoop st.requestQueue { st with isProcessing := true }
              now today net idx := by
          simp [processQueue, hidle, hqe]
        rw [hrun, hqe]
        exact processQueueLoop_fst _ _ _ _ _ _
  · cases hqe : st.requestQueue with
    | nil => simp [processQueue, hqe]
    | cons a l =>
        have hrun : processQueue st now today net idx =
            processQueueLoop st.requestQueue { st with isProcessing := true }
              now today net idx := by
          simp [processQueue, hidle, hqe]
        rw [hrun, hqe]
        exact processQueueLoop_delays _ _ _ _ _ _
  · cases hqe : st.requestQueue with
    | nil => simp [processQueue, hqe]
    | cons a l =>
        have hrun : processQueue st now today net idx =
            processQueueLoop st.requestQueue { st with isProcessing := true }
              now today net idx := by
          simp [processQueue, hidle, hqe]
        rw [hrun]
        obtain ⟨t, s, r, ht⟩ := processQueueLoop_shape st.requestQueue now today net
          (by rw [hqe]; simp) { st with isProcessing := true } idx
        rw [ht]
        simp [QEvent.isDelay, List.getLast?_concat]

/-- The network oracle used by the C3 witness: every call succeeds. -/
def c3Net : Nat → NetResponse := fun _ => NetResponse.ok { c := some 5, pc := 4 }

/-- An idle state with two queued symbols for the C3 witness. -/
def c3State : APIState :=
  { requestQueue := ["AAPL", "MSFT"], lastResetDate := "d" }

/-- Witness for C3 at a concrete two-item queue. -/
theorem fifo_single_drain_witness :
    c3State.isProcessing = false ∧
    ((processQueue c3State 0 "d" c3Net 0).resolutions.map Prod.fst = c3State.requestQueue ∧
    processQueue { c3State with isProcessing := true } 0 "d" c3Net 0 =
      { state := { c3State with isProcessing := true }, resolutions := [], trace := [],
        netCalls := [], nextIdx := 0 } ∧
    (processQueue c3State 0 "d" c3Net 0).trace.countP QEvent.isDelay =
      c3State.requestQueue.length - 1 ∧
    (processQueue c3State 0 "d" c3Net 0).trace.getLast?.map QEvent.isDelay ≠ some true) :=
  ⟨rfl, fifo_single_drain c3State 0 "d" c3Net 0 rfl⟩

/-- C5: an exception thrown by makeAPIRequest for the head item is
caught inside the drain loop and resolved to that caller as a failed
result carrying the error message, and the loop still resolves every
remaining item exactly once, in order. -/
theorem drain_catches_error (symbol : String) (rest : List String) (st : APIState)
    (now : Nat) (today : String) (net : Nat → NetResponse) (idx : Nat) (e : String)
    (herr : (makeAPIRequest { st with requestQueue := rest } symbol today net idx).1 =
      Except.error e) :
    (processQueueLoop (symbol :: rest) st now today net idx).resolutions.head? =
      some (symbol,
        { success := false, error := some (jsOrString e "Failed to fetch stock data") }) ∧
    (processQueueLoop (symbol :: rest) st now today net idx).resolutions.map Prod.fst =
      symbol :: rest := by
  constructor
  · rw [processQueueLoop]
    simp [herr]
  · exact processQueueLoop_fst _ _ _ _ _ _

/-- The failing network oracle of the C5 witness. -/
def c5Net : Nat → NetResponse := fun _ => NetResponse.netError "boom"

/-- Witness for C5: the first of two queued items fails, is resolved
as a failure, and the second item is still dispatched and resolved. -/
theorem drain_catches_error_witness :
    ((makeAPIRequest { initialState 0 "d" with requestQueue := ["MSFT"] } "AAPL" "d"
        c5Net 0).1 = Except.error "Finnhub API failed") ∧
    (processQueueLoop ["AAPL", "MSFT"] (initialState 0 "d") 1 "d" c5Net 0).resolutions.head? =
      some ("AAPL",
        { success := false,
          error := some (jsOrString "Finnhub API failed" "Failed to fetch stock data") }) ∧
    (processQueueLoop ["AAPL", "MSFT"] (initialState 0 "d") 1 "d" c5Net 0).resolutions.map
      Prod.fst = ["AAPL", "MSFT"] :=
  ⟨rfl,
   drain_catches_error "AAPL" ["MSFT"] (initialState 0 "d") 1 "d" c5Net 0
     "Finnhub API failed" rfl⟩

/-- The reset check never touches the cache. -/
theorem checkAndReset_cache (st : APIState) (today : String) :
    (checkAndResetDailyCounter st today).cache = st.cache := by
  unfold checkAndResetDailyCounter
  split <;> rfl

/-- canMakeRequest never touches the cache. -/
theorem canMakeRequest_cache (st : APIState) (today : String) :
    (canMakeRequest st today).2.cache = st.cache := by
  simp [canMakeRequest, checkAndReset_cache]

/-- incrementRequestCount never touches the cache. -/
theorem incrementRequestCount_cache (st : APIState) (today : String) :
    (incrementRequestCount st today).cache = st.cache := by
  simp [incrementRequestCount, checkAndReset_cache]

/-- makeAPIRequest never touches the cache (the write happens in the
drain loop, after it returns). -/
theorem makeAPIRequest_cache (st : APIState) (sym today : String)
    (net : Nat → NetResponse) (idx : Nat) :
    (makeAPIRequest st sym today net idx).2.1.cache = st.cache := by
  simp only [makeAPIRequest]
  split
  · exact canMakeRequest_cache st today
  · split
    · simp [incrementRequestCount_cache, canMakeRequest_cache]
    · simp [incrementRequestCount_cache, canMakeRequest_cache]

/-- makeAPIRequest returns normally only when the provider result is a
success; a failed provider result is thrown instead. -/
theorem makeAPIRequest_ok_success (st : APIState) (sym today : String)
    (net : Nat → NetResponse) (idx : Nat) (r : QuoteResult)
    (hok : (makeAPIRequest st sym today net idx).1 = Except.ok r) : r.success = true := by
  simp only [makeAPIRequest] at hok
  split at hok
  · simp at hok
  · split at hok
    · rename_i hs
      simp at hok
      rw [← hok]
      exact hs
    · simp at hok

/-- A setCache of a successful result preserves the all-success cache
invariant. -/
theorem cacheAllSuccess_setCache (st : APIState) (sym : String) (r : QuoteResult)
    (now : Nat) (hinv : cacheAllSuccess st) (hr : r.success = true) :
    cacheAllSuccess (setCache st sym r now) := by
  intro p hp
  have hp₁ : p ∈ mapSet st.cache (jsToUpper sym) { data := r, timestamp := now } := by
    simp only [setCache] at hp
    split at hp
    · split at hp
      · exact mem_mapDelete _ _ _ hp
      · exact hp
    · exact hp
  rcases mem_mapSet _ _ _ _ hp₁ with h | h
  · exact hinv p h
  · rw [h]
    exact hr

/-- The drain loop writes only successful results into the cache: the
all-success invariant is preserved by an entire drain. -/
theorem cacheAllSuccess_loop (q : List String) (now : Nat) (today : String)
    (net : Nat → NetResponse) : ∀ (st : APIState) (idx : Nat), cacheAllSuccess st →
    cacheAllSuccess (processQueueLoop q st now today net idx).state := by
  induction q with
  | nil =>
      intro st idx hinv
      simp only [processQueueLoop]
      intro p hp
      exact hinv p hp
  | cons symbol rest ih =>
      intro st idx hinv
      have hinv₀ : cacheAllSuccess { st with requestQueue := rest } := fun p hp => hinv p hp
      have hc := makeAPIRequest_cache { st with requestQueue := rest } symbol today net idx
      have hinv₁ : cacheAllSuccess
          (makeAPIRequest { st with requestQueue := rest } symbol today net idx).2.1 := by
        intro p hp
        rw [hc] at hp
        exact hinv₀ p hp
      cases hm : (makeAPIRequest { st with requestQueue := rest } symbol today net idx).1 with
      | ok res =>
          have hsucc := makeAPIRequest_ok_success _ _ _ _ _ _ hm
          have hinv₂ := cacheAllSuccess_setCache _ symbol res now hinv₁ hsucc
          rw [processQueueLoop]
          simp only [hm]
          exact ih _ _ hinv₂
      | error e =>
          rw [processQueueLoop]
          simp only [hm]
          exact ih _ _ hinv₁

/-- processQueue preserves the all-success cache invariant. -/
theorem cacheAllSuccess_processQueue (st : APIState) (now : Nat) (today : String)
    (net : Nat → NetResponse) (idx : Nat) (hinv : cacheAllSuccess st) :
    cacheAllSuccess (processQueue st now today net idx).state := by
  unfold processQueue
  split
  · exact hinv
  · exact cacheAllSuccess_loop _ _ _ _ _ _ (fun p hp => hinv p hp)

/-- C9: every operation keeps the invariant that each cached entry
holds a successful result; makeAPIRequest resolves normally only with
a success (a failure is thrown, resolved to the caller inside the
drain loop without a cache write), so a failure is never served from
the cache. -/
theorem cache_never_stores_failure (st : APIState) (now : Nat) (today sym : String)
    (net : Nat → NetResponse) (idx : Nat) (r : QuoteResult)
    (hinv : cacheAllSuccess st)
    (hok : (makeAPIRequest st sym today net idx).1 = Except.ok r) :
    cacheAllSuccess (processQueue st now today net idx).state ∧ r.success = true :=
  ⟨cacheAllSuccess_processQueue st now today net idx hinv,
   makeAPIRequest_ok_success st sym today net idx r hok⟩

/-- The successful result produced by the C9 witness oracle. -/
def c9Result : QuoteResult :=
  { success := true, price := some (round2 5), change := some (round2 (5 - 4)),
    changePercent := some (round2 ((5 - 4) / 4 * 100)),
    currency := some "USD", source := some "finnhub" }

/-- Witness for C9 at a concrete state and successful request. -/
theorem cache_never_stores_failure_witness :
    (cacheAllSuccess (initialState 0 "d") ∧
      (makeAPIRequest (initialState 0 "d") "AAPL" "d" c3Net 0).1 = Except.ok c9Result) ∧
    cacheAllSuccess (processQueue (initialState 0 "d") 0 "d" c3Net 0).state ∧
    c9Result.success = true :=
  ⟨⟨fun p hp => absurd hp (List.not_mem_nil p), rfl⟩,
   cache_never_stores_failure (initialState 0 "d") 0 "d" "AAPL" c3Net 0 c9Result
     (fun p hp => absurd hp (List.not_mem_nil p)) rfl⟩

/-- A successful provider response body for counterexample runs. -/
def okResp : NetResponse := NetResponse.ok { c := some 5, pc := 4 }

/-- C6 counterexample: "BAD!" fails the format check, yet
fetchFromFinnhub still issues the outbound network call for it (and
here even returns a success), refuting the claim that the adapter
rejects malformed symbols before any network call. -/
theorem adapter_validates_cex :
    validateSymbol "BAD!" = false ∧
    (fetchFromFinnhub "BAD!" okResp).2 = ["BAD!"] ∧
    (fetchFromFinnhub "BAD!" okResp).1.success = true := by
  decide

/-- C6 as amended: validateSymbol does decide the 1-to-10-alphanumeric
format (on the trimmed symbol), but fetchFromFinnhub never invokes it:
the adapter issues exactly one outbound call for every symbol,
malformed or not; rejection of malformed symbols happens only in the
UI layer before fetchStockPrice is reached. -/
theorem adapter_no_validation (s : String) (resp : NetResponse) :
    (fetchFromFinnhub s resp).2 = [s] ∧
    (validateSymbol s = true ↔ wellFormedSymbol s) := by
  constructor
  · cases resp with
    | ok body =>
        cases hc : body.c with
        | none => simp [fetchFromFinnhub, hc]
        | some c =>
            by_cases h : 0 < c
            · simp [fetchFromFinnhub, hc, h]
            · simp [fetchFromFinnhub, hc, h]
    | httpError a b => rfl
    | netError m => rfl
  · by_cases he : s = ""
    · subst he
      simp only [wellFormedSymbol]
      decide
    · simp only [validateSymbol, if_neg he, wellFormedSymbol]
      simp [Bool.and_eq_true, decide_eq_true_eq, List.all_eq_true, and_assoc]

/-- Every batchFetchLoop entry carries its input symbol, in order. -/
theorem batchFetchLoop_fst (syms : List String) (now : Nat) (today : String)
    (net : Nat → NetResponse) : ∀ (st : APIState) (idx done total : Nat),
    (batchFetchLoop syms st now today net idx done total).1.map Prod.fst = syms := by
  induction syms with
  | nil => intro st idx done total; simp [batchFetchLoop]
  | cons s rest ih => intro st idx done total; simp [batchFetchLoop, ih]

/-- slice with a non-negative end is a prefix. -/
theorem jsSliceEnd_natCast {α : Type} (l : List α) (r : Nat) :
    jsSliceEnd l ((r : Nat) : ℤ) = l.take r := by
  unfold jsSliceEnd
  rw [if_neg (by omega)]
  simp

/-- The state whose quota is exhausted today, for the C4 counterexample. -/
def c4State : APIState := { dailyRequestCount := 50, lastResetDate := "d" }

/-- C4 counterexample: the synthesized skip entries carry the error
text with a capital S, not the all-lowercase text asserted by the
claim. Everything else about the truncation holds at this input. -/
theorem batch_truncation_cex :
    (batchFetch c4State ["A"] 0 "d" c3Net 0).1 = [("A", skippedResult)] ∧
    skippedResult.error ≠ some "skipped due to daily quota limit" ∧
    skippedResult.error = some "Skipped due to daily quota limit" := by
  decide

/-- C4 as amended: with remaining quota r smaller than the input
length, batchFetch returns one entry per input symbol preserving input
order; the first r entries are the sequential fetch attempts over the
first r symbols, and every later entry is the synthesized failure
whose error text is the capitalized string. -/
theorem batch_truncation (st : APIState) (symbols : List String) (now : Nat)
    (today : String) (net : Nat → NetResponse) (idx : Nat)
    (hcount : st.dailyRequestCount ≤ st.maxDailyRequests)
    (hr : st.maxDailyRequests - st.dailyRequestCount < symbols.length) :
    (batchFetch st symbols now today net idx).1.map Prod.fst = symbols ∧
    (batchFetch st symbols now today net idx).1.length = symbols.length ∧
    (batchFetch st symbols now today net idx).1.drop
        (st.maxDailyRequests - st.dailyRequestCount) =
      (symbols.drop (st.maxDailyRequests - st.dailyRequestCount)).map
        (fun s => (s, skippedResult)) ∧
    (batchFetch st symbols now today net idx).1.take
        (st.maxDailyRequests - st.dailyRequestCount) =
      (batchFetchLoop (symbols.take (st.maxDailyRequests - st.dailyRequestCount)) st
        now today net idx 0
        (symbols.take (st.maxDailyRequests - st.dailyRequestCount)).length).1 ∧
    skippedResult = { success := false, error := some "Skipped due to daily quota limit" } := by
  set r := st.maxDailyRequests - st.dailyRequestCount with hrdef
  have hmin : min ((symbols.length : ℤ))
      ((st.maxDailyRequests : ℤ) - (st.dailyRequestCount : ℤ)) = (r : ℤ) := by
    omega
  have hslice : jsSliceEnd symbols (min ((symbols.length : ℤ))
      ((st.maxDailyRequests : ℤ) - (st.dailyRequestCount : ℤ))) = symbols.take r := by
    rw [hmin, jsSliceEnd_natCast]
  have htlen : (symbols.take r).length = r := by
    rw [List.length_take]
    omega
  have hbfst := batchFetchLoop_fst (symbols.take r) now today net st idx 0
    (symbols.take r).length
  have hblen : (batchFetchLoop (symbols.take r) st now today net idx 0
      (symbols.take r).length).1.length = r := by
    have := congrArg List.length hbfst
    simpa [htlen] using this
  have hbf : (batchFetch st symbols now today net idx).1 =
      (batchFetchLoop (symbols.take r) st now today net idx 0
        (symbols.take r).length).1 ++
        (symbols.drop r).map (fun s => (s, skippedResult)) := by
    simp only [batchFetch, hslice, htlen]
  refine ⟨?_, ?_, ?_, ?_, rfl⟩
  · rw [hbf, List.map_append, hbfst]
    simp only [List.map_drop]
    have hid : (Prod.fst ∘ fun s : String => (s, skippedResult)) = id := rfl
    rw [List.map_map, hid, List.map_id, List.take_append_drop]
  · rw [hbf, List.length_append, hblen]
    simp only [List.length_map, List.length_drop]
    omega
  · rw [hbf]
    nth_rewrite 1 [← hblen]
    exact List.drop_left _ _
  · rw [hbf]
    nth_rewrite 1 [← hblen]
    exact List.take_left _ _

/-- The one-slot-left state of the C4 witness. -/
def c4wState : APIState := { dailyRequestCount := 49, lastResetDate := "d" }

set_option maxRecDepth 8192 in
/-- Witness for the amended C4: three symbols, one slot of quota left:
the first is attempted, the last two are skipped in order. -/
theorem batch_truncation_witness :
    (c4wState.dailyRequestCount ≤ c4wState.maxDailyRequests ∧
      c4wState.maxDailyRequests - c4wState.dailyRequestCount < (["A", "B", "C"] : List String).length) ∧
    (batchFetch c4wState ["A", "B", "C"] 0 "d" c3Net 0).1.map Prod.fst = ["A", "B", "C"] ∧
    (batchFetch c4wState ["A", "B", "C"] 0 "d" c3Net 0).1.length =
      (["A", "B", "C"] : List String).length ∧
    (batchFetch c4wState ["A", "B", "C"] 0 "d" c3Net 0).1.drop
        (c4wState.maxDailyRequests - c4wState.dailyRequestCount) =
      ((["A", "B", "C"] : List String).drop
        (c4wState.maxDailyRequests - c4wState.dailyRequestCount)).map
        (fun s => (s, skippedResult)) ∧
    (batchFetch c4wState ["A", "B", "C"] 0 "d" c3Net 0).1.take
        (c4wState.maxDailyRequests - c4wState.dailyRequestCount) =
      (batchFetchLoop ((["A", "B", "C"] : List String).take
          (c4wState.maxDailyRequests - c4wState.dailyRequestCount)) c4wState
        0 "d" c3Net 0 0
        ((["A", "B", "C"] : List String).take
          (c4wState.maxDailyRequests - c4wState.dailyRequestCount)).length).1 ∧
    skippedResult = { success := false, error := some "Skipped due to daily quota limit" } :=
  ⟨⟨by decide, by decide⟩,
   batch_truncation c4wState ["A", "B", "C"] 0 "d" c3Net 0 (by decide) (by decide)⟩

/-- The stale exhausted state of the C10 counterexample: the persisted
counter is above the (possibly since lowered) limit and the reset date
is stale. -/
def c10State : APIState := { dailyRequestCount := 51, lastResetDate := "prev" }

/-- C10 counterexample: with a stale reset date and a counter strictly
above the limit, batchFetch does NOT skip every symbol: the negative
slice end keeps a prefix, the first symbol is fetched and a network
call is issued, refuting the claim for counts above the limit. -/
theorem batch_skips_without_reset_cex :
    c10State.lastResetDate ≠ "d" ∧
    c10State.maxDailyRequests ≤ c10State.dailyRequestCount ∧
    (batchFetch c10State ["A", "B"] 0 "d" c3Net 0).2.2.2.2 ≠ [] ∧
    ((batchFetch c10State ["A", "B"] 0 "d" c3Net 0).1.head?.map
      (fun p => p.2.success)) = some true := by
  decide

/-- C10 as amended: batchFetch computes its truncation threshold from
the stored counter without the daily reset check. When the persisted
reset date is stale and the counter equals the limit, every input
symbol is skipped and no fetch is attempted, even though a direct
canMakeRequest at that moment performs the reset and admits. -/
theorem batch_skips_without_reset (st : APIState) (symbols : List String) (now : Nat)
    (today : String) (net : Nat → NetResponse) (idx : Nat)
    (hdate : st.lastResetDate ≠ today)
    (hcount : st.dailyRequestCount = st.maxDailyRequests)
    (hlimit : 0 < st.maxDailyRequests) :
    (batchFetch st symbols now today net idx).1 =
      symbols.map (fun s => (s, skippedResult)) ∧
    (batchFetch st symbols now today net idx).2.2.2.2 = [] ∧
    (canMakeRequest st today).1 = true ∧
    (canMakeRequest st today).2.dailyRequestCount = 0 := by
  have hmin : min ((symbols.length : ℤ))
      ((st.maxDailyRequests : ℤ) - (st.dailyRequestCount : ℤ)) = (0 : ℤ) := by
    omega
  have hslice : jsSliceEnd symbols (min ((symbols.length : ℤ))
      ((st.maxDailyRequests : ℤ) - (st.dailyRequestCount : ℤ))) = ([] : List String) := by
    rw [hmin]
    simp [jsSliceEnd]
  refine ⟨?_, ?_, ?_, ?_⟩
  · simp only [batchFetch, hslice, batchFetchLoop]
    simp
  · simp only [batchFetch, hslice, batchFetchLoop]
  · simp [canMakeRequest, checkAndResetDailyCounter, hdate, hlimit]
  · simp [canMakeRequest, checkAndResetDailyCounter, hdate]

/-- The stale at-the-limit state of the C10 witness. -/
def c10wState : APIState := { dailyRequestCount := 50, lastResetDate := "prev" }

/-- Witness for the amended C10 at a concrete stale state. -/
theorem batch_skips_without_reset_witness :
    (c10wState.lastResetDate ≠ "d" ∧
      c10wState.dailyRequestCount = c10wState.maxDailyRequests ∧
      0 < c10wState.maxDailyRequests) ∧
    (batchFetch c10wState ["A", "B"] 0 "d" c3Net 0).1 =
      (["A", "B"] : List String).map (fun s => (s, skippedResult)) ∧
    (batchFetch c10wState ["A", "B"] 0 "d" c3Net 0).2.2.2.2 = [] ∧
    (canMakeRequest c10wState "d").1 = true ∧
    (canMakeRequest c10wState "d").2.dailyRequestCount = 0 :=
  ⟨⟨by decide, rfl, by decide⟩,
   batch_skips_without_reset c10wState ["A", "B"] 0 "d" c3Net 0
     (by decide) rfl (by decide)⟩

end StockTracker
